import Mathlib

/-!
Verification development for the blottertools six-stage pipeline.

The Python source operates on a pandas DataFrame; we shallow-embed the
dataset as a list of records.  Decimal values (pandas `object` columns of
`decimal.Decimal`) are modelled as exact rationals (`Rat`); calendar dates
as integers counting days, so "one calendar day later" is `d + 1`; the
`row_index` primary key (column "index" created by `reset_index` in stage 1)
as a `Nat` field `idx`.  String comparison in pandas (`series.min()` on
object columns) is code-point lexicographic; we define it structurally on
character lists so that it is kernel-computable.
-/

/-- Lexicographic comparison of character lists by code point, as Python
compares strings. -/
def lexLe : List Char → List Char → Bool
  | [], _ => true
  | _ :: _, [] => false
  | a :: as, b :: bs =>
    if a.toNat < b.toNat then true
    else if b.toNat < a.toNat then false
    else lexLe as bs

/-- Code-point order on strings (the order pandas uses for `min` on a
string column). -/
def strLeB (a b : String) : Bool := lexLe a.data b.data

/-- Total order on `Int` as a boolean, for sorting date keys. -/
def intLeB (a b : Int) : Bool := decide (a ≤ b)

/-- Smallest element of a list of naturals (`series.min()` on the "index"
column); `dflt` is returned for the empty list, which pandas never builds
for a nonempty group. -/
def minNatD (dflt : Nat) : List Nat → Nat
  | [] => dflt
  | x :: xs => xs.foldl Nat.min x

/-- Smallest element of a list of strings under code-point order
(`series.min()` on an object string column such as "analyst"). -/
def minStrD (dflt : String) : List String → String
  | [] => dflt
  | x :: xs => xs.foldl (fun a b => if strLeB a b then a else b) x

/-- Rank of a sector label inside the ordered category list of the sector
column (position of the category, as pandas ordered categoricals compare). -/
def catRank (cats : List String) (s : String) : Nat :=
  cats.findIdx (fun c => c == s)

/-- Smallest element of a list of sector values under the CATEGORY order of
the dataset's sector dtype (`series.min()` on an ordered categorical column:
pandas compares categories by their position in the category list, not
lexicographically). -/
def minCatD (cats : List String) (dflt : String) : List String → String
  | [] => dflt
  | x :: xs => xs.foldl (fun a b => if catRank cats b < catRank cats a then b else a) x

/-- Insert into a le-sorted list, keeping order. -/
def insertOrdered (le : α → α → Bool) (a : α) : List α → List α
  | [] => [a]
  | b :: bs => if le a b then a :: b :: bs else b :: insertOrdered le a bs

/-- Insertion sort; models the ascending key order produced by pandas
groupby (sort=True) and sort_index. -/
def insSort (le : α → α → Bool) : List α → List α
  | [] => []
  | a :: as => insertOrdered le a (insSort le as)

/-- Decimal digits of a positive natural, most significant first; the fuel
argument makes the recursion structural (fuel `n` suffices for `n`). -/
def decDigits : Nat → Nat → List Char
  | 0, _ => []
  | _ + 1, 0 => []
  | fuel + 1, n + 1 =>
    decDigits fuel ((n + 1) / 10) ++ [Nat.digitChar ((n + 1) % 10)]

/-- Decimal rendering of a natural number, as Python `str(int)` renders the
row index inside the f-string of `impute_ticker_symbol`. -/
def decRepr (n : Nat) : String :=
  if n = 0 then "0" else String.mk (decDigits n n)

/-- Decode a digit string back to a natural; used only to prove `decRepr`
injective. -/
def decodeDigits (cs : List Char) : Nat :=
  cs.foldl (fun a c => a * 10 + (c.toNat - 48)) 0

/-- Position row as it enters the pipeline: `date` is already a calendar
day number (the `pandas.to_datetime` conversion is outside the claims under
check), `pal` and `exposure` are still the raw decimal strings read from the
CSV (dtype `object`), `sector` is the raw label, and `idx` is the slot that
stage 1 fills from the original row order. -/
structure RawRow where
  idx : Nat
  date : Int
  lkid : String
  ticker : String
  analyst : String
  sector : String
  pal : String
  exposure : String
deriving Repr, DecidableEq

/-- Position row after stage 2: `pal`/`exposure` are exact decimals,
`sector` canonicalized; `openLiq` and `ret` are the derived columns, null
until stages 4 and 5 compute them. -/
structure Row where
  idx : Nat
  date : Int
  lkid : String
  ticker : String
  analyst : String
  sector : String
  pal : Rat
  exposure : Rat
  openLiq : Option Rat
  ret : Option Rat
deriving Repr, DecidableEq

/-! ### Stage 1 — primary key assignment (`step1_create_pk`)

`_df.reset_index(inplace=True)` copies the original RangeIndex (row
positions in input order) into the column "index". -/

/-- Stage 1: assign `idx` equal to the row's position in input order. -/
def step1 (rows : List RawRow) : List RawRow :=
  rows.enum.map fun p => { p.2 with idx := p.1 }

/-! ### Stage 2 — normalization (`step2_sector_pal_date`)

The sector column is made an ordered categorical (categories = sorted
distinct values), "Technology" is renamed in place to
"Information Technology" (`cat.rename_categories` raises when the new label
already exists among the categories), and `pal`/`exposure` are parsed by the
`decimal.Decimal` constructor, which is exact regardless of the context
precision. -/

/-- Sector rename table of `cat.rename_categories`. -/
def renameSector (s : String) : String :=
  if s = "Technology" then "Information Technology" else s

/-- Split an optional leading sign as the Decimal constructor does. -/
def decSign : List Char → Bool × List Char
  | '-' :: cs => (true, cs)
  | '+' :: cs => (false, cs)
  | cs => (false, cs)

/-- Check that every character is an ASCII digit. -/
def isDigitList (cs : List Char) : Bool := cs.all (·.isDigit)

/-- Value of a digit string as a natural number. -/
def digitsVal (cs : List Char) : Nat :=
  cs.foldl (fun a c => a * 10 + (c.toNat - 48)) 0

/-- Parse the unsigned body of a decimal literal into
(integer part, fraction part, number of fraction digits); mirrors the
`digits [. digits]` form the Decimal constructor accepts for the CSV money
columns (exponents and specials do not occur in this data). -/
def decBody? (cs : List Char) : Option (Nat × Nat × Nat) :=
  match cs.span (fun c => c != '.') with
  | (ip, []) =>
    if isDigitList ip && !ip.isEmpty then some (digitsVal ip, 0, 0) else none
  | (ip, _ :: fp) =>
    if isDigitList ip && isDigitList fp && (!ip.isEmpty || !fp.isEmpty) then
      some (digitsVal ip, digitsVal fp, fp.length)
    else none

/-- Exact rational value of a decimal literal, as `decimal.Decimal(s)`
constructs it (construction never rounds). -/
def decimalOfString (s : String) : Option Rat :=
  let sb := decSign s.data
  match decBody? sb.2 with
  | some (a, b, k) =>
    some ((if sb.1 then (-1 : Rat) else 1) * ((a : Rat) + (b : Rat) / (10 : Rat) ^ k))
  | none => none

/-- Sign-coefficient-exponent form of a Python `Decimal`: the value is
`±coeff · 10^(-fracDigits)` with the coefficient holding every written
digit (arbitrary precision, no 28-digit rounding at construction). -/
structure Dec where
  neg : Bool
  coeff : Nat
  fracDigits : Nat
deriving Repr, DecidableEq

/-- Rational value denoted by a `Dec`. -/
def Dec.toRat (d : Dec) : Rat :=
  (if d.neg then (-1 : Rat) else 1) * (d.coeff : Rat) / (10 : Rat) ^ d.fracDigits

/-- Parse a decimal literal into sign-coefficient-exponent form. -/
def decOfString (s : String) : Option Dec :=
  let sb := decSign s.data
  match decBody? sb.2 with
  | some (a, b, k) => some ⟨sb.1, a * 10 ^ k + b, k⟩
  | none => none

/-- Parse one raw row through stage 2: sector renamed, `pal` and `exposure`
converted to exact decimals; `None` is the ParseError case. -/
def parseRow (r : RawRow) : Option Row := do
  let p ← decimalOfString r.pal
  let e ← decimalOfString r.exposure
  pure { idx := r.idx, date := r.date, lkid := r.lkid, ticker := r.ticker,
         analyst := r.analyst, sector := renameSector r.sector,
         pal := p, exposure := e, openLiq := none, ret := none }

/-- Ordered category list of the sector column after stage 2: categories
are the sorted distinct raw labels with the rename applied in place (this
is what `astype(CategoricalDtype(ordered=True))` followed by
`rename_categories` produces, and why the renamed label keeps the ORIGINAL
alphabetical position of "Technology" in the category order). -/
def sectorCatsOf (rows : List RawRow) : List String :=
  (insSort strLeB (rows.map (·.sector)).dedup).map renameSector

/-- Stage 2 on the dataset: fails (ParseError) when some cell is not a
decimal literal, or when the rename would collide with an existing
"Information Technology" category (`rename_categories` raises ValueError).
Returns the sector category list together with the typed rows. -/
def step2 (rows : List RawRow) : Except String (List String × List Row) :=
  if "Technology" ∈ rows.map (·.sector) ∧ "Information Technology" ∈ rows.map (·.sector) then
    .error "ValueError: Categorical categories must be unique"
  else
    match rows.mapM parseRow with
    | some rs => .ok (sectorCatsOf rows, rs)
    | none => .error "ParseError"

/-! ### Stage 3 — ticker imputation (`step3_impute_ticker`)

Only when the dataset has no ticker column, each row receives the synthetic
ticker string built from its row index. -/

/-- Stage 3: `hasTicker` records whether the input file had a ticker
column. -/
def step3 (hasTicker : Bool) (rows : List Row) : List Row :=
  if hasTicker then rows
  else rows.map fun r => { r with ticker := "ticker_" ++ decRepr r.idx }

/-! ### Stage 4 — open liquidity (`step4_compute_open_liq`)

For each (`lkid`,`ticker`) group: rows sharing a date are collapsed by the
date-groupby aggregation (index/analyst/sector min, pal/exposure sum); the
collapsed frame's `exposure` is shifted by minus one calendar DAY
(`shift(-1, "D")` moves the value at date `d+1` onto label `d`, leaving NaN
where no row is dated exactly `d+1`); NaN slots are imputed with
`exposure - pal`; the frame is re-indexed by the collapsed "index" value of
each date and merged into the full dataset with `_df.update`, which aligns
those values against the dataset's current labels (the row positions left
by stage 1's reset_index). -/

/-- Rows of one (`lkid`,`ticker`) partition, in dataset order. -/
def partitionLT (df : List Row) (k t : String) : List Row :=
  df.filter fun r => r.lkid == k && r.ticker == t

/-- Rows of a partition sharing one date. -/
def dateClass (part : List Row) (d : Int) : List Row :=
  part.filter fun r => r.date == d

/-- Collapsed synthetic row produced by the date groupby inside one
partition. -/
structure CRow where
  date : Int
  idx : Nat
  analyst : String
  sector : String
  pal : Rat
  exposure : Rat
  openLiq : Option Rat
deriving Repr, DecidableEq

/-- Aggregate one date group of a partition: "index"/analyst take the
smallest value, sector the smallest in category order, pal/exposure the
sums. -/
def collapseAt (cats : List String) (part : List Row) (d : Int) : CRow :=
  let c := dateClass part d
  { date := d
    idx := minNatD 0 (c.map (·.idx))
    analyst := minStrD "" (c.map (·.analyst))
    sector := minCatD cats "" (c.map (·.sector))
    pal := (c.map (·.pal)).sum
    exposure := (c.map (·.exposure)).sum
    openLiq := none }

/-- Distinct dates of a partition in ascending order (the date-groupby
keys). -/
def groupDates (part : List Row) : List Int :=
  insSort intLeB (part.map (·.date)).dedup

/-- The collapsed frame of one partition, one row per distinct date. -/
def collapsedOf (cats : List String) (part : List Row) : List CRow :=
  (groupDates part).map (collapseAt cats part)

/-- EOD[i] becomes Open[i+1]: `shift(-1, "D")` aligns onto label `d` the
exposure sitting at date `d + 1`, if any. -/
def shiftOpen (cs : List CRow) : List CRow :=
  cs.map fun c =>
    { c with openLiq := (cs.find? (fun c2 => c2.date == c.date + 1)).map (·.exposure) }

/-- Impute rows still null after the shift with `exposure - pal`
(`impute_first_day_open_liq`). -/
def imputeOpen (cs : List CRow) : List CRow :=
  cs.map fun c =>
    match c.openLiq with
    | some v => { c with openLiq := some v }
    | none => { c with openLiq := some (c.exposure - c.pal) }

/-- Full per-partition computation of stage 4. -/
def part4 (cats : List String) (part : List Row) : List CRow :=
  imputeOpen (shiftOpen (collapsedOf cats part))

/-- The collapsed row of date `d` after the shift and the imputation, as a
function of the date; `part4` is the map of this function over the
partition's dates. -/
def p4At (cats : List String) (part : List Row) (d : Int) : CRow :=
  let c := collapseAt cats part d
  match ((collapsedOf cats part).find? (fun c2 => c2.date == d + 1)).map (·.exposure) with
  | some v => { c with openLiq := some v }
  | none => { c with openLiq := some (c.exposure - c.pal) }

/-- The (`lkid`,`ticker`) group keys in pandas groupby order (sorted
distinct pairs). -/
def ltKeys (df : List Row) : List (String × String) :=
  insSort (fun a b => if a.1 == b.1 then strLeB a.2 b.2 else strLeB a.1 b.1)
    ((df.map fun r => (r.lkid, r.ticker)).dedup)

/-- Every collapsed row produced by stage 4, across all partitions; its
`idx` field is the label the final `_df.update` aligns on. -/
def step4Updates (cats : List String) (df : List Row) : List CRow :=
  ((ltKeys df).map fun k => part4 cats (partitionLT df k.1 k.2)).flatten

/-- Stage 4 on the dataset.  `open_liq` is first set to null everywhere;
`_df.update` then overwrites analyst/sector/pal/exposure/open_liq at each
label carried by a collapsed row.  The dataset's labels here are the row
positions (stage 1's reset_index left a RangeIndex), so a collapsed row
with "index" value `p` lands on the row at position `p`; in a pipeline run
positions and `idx` values coincide, and representative labels are pairwise
distinct, so which partition produced a label is immaterial. -/
def step4 (cats : List String) (df : List Row) : List Row :=
  df.enum.map fun pr =>
    match (step4Updates cats df).find? (fun c => c.idx == pr.1) with
    | some c =>
      { pr.2 with analyst := c.analyst, sector := c.sector, pal := c.pal,
                  exposure := c.exposure, openLiq := c.openLiq }
    | none => { pr.2 with openLiq := none }

/-! ### Stage 5 — return computation (`step5_compute_fund_value`)

The dataset is re-indexed by "index"; for each date group the total fund
value is the sum of the group's non-null `open_liq` values (pandas `sum`
skips nulls), and every row of the group gets `return = pal / total`.  The
values are `decimal.Decimal`, and dividing a Decimal by a zero total raises
`decimal.DivisionByZero` (or `InvalidOperation` for 0/0) under the default
context traps — the loop aborts instead of producing a NaN. -/

/-- Rows dated `d`. -/
def dayRows (df : List Row) (d : Int) : List Row :=
  df.filter fun r => r.date == d

/-- Total fund value of a date: sum of the non-null `open_liq` entries of
that day (skipna sum). -/
def totalFund (df : List Row) (d : Int) : Rat :=
  ((dayRows df d).filterMap (·.openLiq)).sum

/-- Distinct dates of the dataset in ascending groupby order. -/
def dfDates (df : List Row) : List Int :=
  insSort intLeB (df.map (·.date)).dedup

/-- Write `return = pal / t` into every row dated `d` (the `_df.update`
merge of one date group's result). -/
def applyRet (df : List Row) (d : Int) (t : Rat) : List Row :=
  df.map fun r => if r.date == d then { r with ret := some (r.pal / t) } else r

/-- Date-group loop of stage 5; raises on the first zero total. -/
def step5Go (df : List Row) : List Int → Except String (List Row)
  | [] => .ok df
  | d :: ds =>
    let t := totalFund df d
    if t = 0 then .error "decimal.DivisionByZero"
    else step5Go (applyRet df d t) ds

/-- Stage 5 on the dataset. -/
def step5 (df : List Row) : Except String (List Row) :=
  step5Go df (dfDates df)

/-! ### Stage 6 — daily aggregation (`step6_agg_daily`)

After `reset_index` the dataset's labels are again the row positions and
the old labels (the `idx` values) sit in column "index".  The
(`date`,`lkid`) groupby aggregates analyst/sector (min), pal/exposure/return
(sum) and "index" via `get_first_index_label`, which returns
`group.index[0]` — the POSITION of the group's first row, not the value of
its "index" column.  `as_index=False` leaves `another_df` with a RangeIndex
`0..G-1`; after the pal/exposure/return columns of the full dataset are
wiped and the dataset is re-indexed by "index", `_df.update(another_df)`
aligns `another_df`'s label `g` with the dataset row whose `idx` is `g` (its
"index" column is NOT the merge key).  `dropna` then removes every row that
still has a null anywhere — the rows beyond the first `G` positions, and
any updated row whose own `open_liq` is null.  Finally the survivors are
sorted ascending by (`lkid`,`date`). -/

/-- Rows of one (`date`,`lkid`) group. -/
def dlClass (df : List Row) (k : Int × String) : List Row :=
  df.filter fun r => r.date == k.1 && r.lkid == k.2

/-- Distinct (`date`,`lkid`) keys in ascending pandas groupby order. -/
def dlKeys (df : List Row) : List (Int × String) :=
  insSort (fun a b => if a.1 == b.1 then strLeB a.2 b.2 else intLeB a.1 b.1)
    ((df.map fun r => (r.date, r.lkid)).dedup)

/-- One aggregated row of `another_df`. -/
structure ARow where
  date : Int
  lkid : String
  analyst : String
  sector : String
  pal : Rat
  exposure : Rat
  ret : Rat
  firstLabel : Nat
deriving Repr, DecidableEq

/-- Aggregate one (`date`,`lkid`) group: analyst min, sector min in
category order, pal/exposure/return summed (return skipna), and
`get_first_index_label` = the position of the group's first row in dataset
order. -/
def aggAt (cats : List String) (df : List Row) (k : Int × String) : ARow :=
  let c := dlClass df k
  { date := k.1
    lkid := k.2
    analyst := minStrD "" (c.map (·.analyst))
    sector := minCatD cats "" (c.map (·.sector))
    pal := (c.map (·.pal)).sum
    exposure := (c.map (·.exposure)).sum
    ret := (c.filterMap (·.ret)).sum
    firstLabel := df.findIdx fun r => r.date == k.1 && r.lkid == k.2 }

/-- The rows of `another_df`, in groupby key order with RangeIndex
`0..G-1`. -/
def aggsOf (cats : List String) (df : List Row) : List ARow :=
  (dlKeys df).map (aggAt cats df)

/-- Working row of stage 6 after the pal/exposure/return wipe: those three
columns are nullable again. -/
structure W6Row where
  idx : Nat
  date : Int
  lkid : String
  ticker : String
  analyst : String
  sector : String
  pal : Option Rat
  exposure : Option Rat
  openLiq : Option Rat
  ret : Option Rat
deriving Repr, DecidableEq

/-- Wipe pal/exposure/return (`_df["pal"] = None` etc.). -/
def wipeCols (df : List Row) : List W6Row :=
  df.map fun r =>
    { idx := r.idx, date := r.date, lkid := r.lkid, ticker := r.ticker,
      analyst := r.analyst, sector := r.sector,
      pal := none, exposure := none, openLiq := r.openLiq, ret := none }

/-- The `_df.update(another_df)` of stage 6: `another_df` label `g` aligns
with the dataset row whose label (its `idx`) equals `g`, overwriting
date/lkid/analyst/sector/pal/exposure/return there. -/
def updateByLabel (ws : List W6Row) (aggs : List ARow) : List W6Row :=
  ws.map fun w =>
    match aggs.get? w.idx with
    | some a =>
      { w with date := a.date, lkid := a.lkid, analyst := a.analyst,
               sector := a.sector, pal := some a.pal,
               exposure := some a.exposure, ret := some a.ret }
    | none => w

/-- The `dropna` of stage 6: keep only rows with no null in any column
(the nullable columns at this point are pal/exposure/return and
open_liq). -/
def dropNullRows (ws : List W6Row) : List W6Row :=
  ws.filter fun w =>
    w.pal.isSome && w.exposure.isSome && w.ret.isSome && w.openLiq.isSome

/-- Final ascending sort by (`lkid`,`date`). -/
def sortW (ws : List W6Row) : List W6Row :=
  insSort (fun a b => if a.lkid == b.lkid then intLeB a.date b.date else strLeB a.lkid b.lkid) ws

/-- Stage 6 on the dataset. -/
def step6 (cats : List String) (df : List Row) : List W6Row :=
  sortW (dropNullRows (updateByLabel (wipeCols df) (aggsOf cats df)))

/-! ### Pipeline composition over the typed stages. -/

/-- Stages 1 to 2. -/
def pipeTo2 (rows : List RawRow) : Except String (List String × List Row) :=
  step2 (step1 rows)

/-- Stages 1 to 3; `hasTicker` says whether the input file had a ticker
column. -/
def pipeTo3 (hasTicker : Bool) (rows : List RawRow) :
    Except String (List String × List Row) := do
  let cr ← pipeTo2 rows
  pure (cr.1, step3 hasTicker cr.2)

/-- Stages 1 to 4. -/
def pipeTo4 (hasTicker : Bool) (rows : List RawRow) :
    Except String (List String × List Row) := do
  let cr ← pipeTo3 hasTicker rows
  pure (cr.1, step4 cr.1 cr.2)

/-- Stages 1 to 5. -/
def pipeTo5 (hasTicker : Bool) (rows : List RawRow) :
    Except String (List String × List Row) := do
  let cr ← pipeTo4 hasTicker rows
  let out ← step5 cr.2
  pure (cr.1, out)

/-- The whole pipeline, stages 1 to 6. -/
def pipeTo6 (hasTicker : Bool) (rows : List RawRow) :
    Except String (List String × List W6Row) := do
  let cr ← pipeTo5 hasTicker rows
  pure (cr.1, step6 cr.1 cr.2)

/-! ### Execution driver (`blottertools.decorators.df_task`,
`blottertools.adapters.Pipeline.run`)

A task's observable behaviour is a value function on datasets plus the fact
of whether the Python callable returns the very object it was passed
(`result is not df`).  In eager (in-place) mode `wrap_context` raises
`RuntimeError` when the identity check fails; in copy mode the task runs on
`df.copy()` (same value) and the driver adopts the returned dataset via
`executor.update_df`.  In both modes the dataset value visible to the next
stage is the task's result value. -/

/-- Observable model of one `@df_task` stage. -/
structure Stage (D : Type) where
  f : D → D
  sameObj : Bool

/-- Error message of the eager-mode identity check in `df_task`. -/
def rebindErr : String :=
  "Transformation task must return a DataFrame, and eager transformation cannot rebind DataFrame"

/-- The `wrap_context` closure produced by `df_task`. -/
def wrapContext {D : Type} (s : Stage D) (d : D) (eager : Bool) : Except String D :=
  if eager && !s.sameObj then .error rebindErr else .ok (s.f d)

/-- The `Pipeline.run` loop: each stage sees the previous value; in copy
mode the driver substitutes the returned dataset, in eager mode the shared
object was mutated to the same value.  A raised error aborts the run. -/
def runPipeline {D : Type} (stages : List (Stage D)) (d : D) (eager : Bool) :
    Except String D :=
  match stages with
  | [] => .ok d
  | s :: rest =>
    match wrapContext s d eager with
    | .ok d2 => runPipeline rest d2 eager
    | .error e => .error e

/-- Plain composition of the stage value functions, the specification both
execution modes should realize. -/
def composeStages {D : Type} (stages : List (Stage D)) (d : D) : D :=
  stages.foldl (fun acc s => s.f acc) d

/-! ### Concrete datasets used by the witnesses and counterexamples. -/

/-- Sector categories of the two-row gap dataset. -/
def c1cats : List String := ["S"]

/-- Two rows of one (`lkid`,`ticker`) partition whose dates have a gap:
day 0 and day 2, with nothing on day 1. -/
def c1df : List Row :=
  [⟨0, 0, "A", "X", "a", "S", 1, 10, none, none⟩,
   ⟨1, 2, "A", "X", "a", "S", 2, 20, none, none⟩]

/-- Two rows of one partition on consecutive days 0 and 1. -/
def c2df : List Row :=
  [⟨0, 0, "A", "X", "a", "S", 1, 10, none, none⟩,
   ⟨1, 1, "A", "X", "a", "S", 2, 20, none, none⟩]

/-- A dataset entering stage 5 whose single date has total fund value zero
(its only row has `open_liq = 0`). -/
def c3df : List Row :=
  [⟨0, 0, "A", "X", "a", "S", 1, 5, some 0, none⟩]

/-- A dataset entering stage 6, as stages 1-5 produce it from a three-row
blotter where rows 0 and 1 share (`lkid`,`ticker`,`date`): stage 4 collapsed
them onto representative row 0 (summed pal 16, exposure 16, `open_liq` 16)
and left row 1 with a null `open_liq`; day 1's row 2 got `open_liq`
16 - 8 = 8; stage 5 gave every row return 1.  It has two distinct
(`date`,`lkid`) pairs, (0,"A") and (1,"A"). -/
def c5df : List Row :=
  [⟨0, 0, "A", "X", "a", "S", 16, 16, some 16, some 1⟩,
   ⟨1, 0, "A", "X", "a", "S", 16, 6, none, some 1⟩,
   ⟨2, 1, "A", "X", "a", "S", 8, 16, some 8, some 1⟩]

/-- Raw rows whose sector labels are "Materials" and "Technology": the
sorted categories are ["Materials", "Technology"], so after the in-place
rename the category ORDER is ["Materials", "Information Technology"] -
no longer alphabetical. -/
def c6raw : List RawRow :=
  [⟨0, 0, "A", "X", "a", "Materials", "1", "2"⟩,
   ⟨1, 0, "A", "Y", "b", "Technology", "1", "2"⟩]

/-- Sector category list produced by stage 2 for `c6raw`. -/
def c6cats : List String := ["Materials", "Information Technology"]

/-- The dataset of `c6raw` as it reaches stage 6 (each row its own
partition in stage 4, `open_liq` imputed to 2 - 1 = 1, day total 2, each
return 1/2): one (`date`,`lkid`) group holding both sectors. -/
def c6df : List Row :=
  [⟨0, 0, "A", "X", "a", "Materials", 1, 2, some 1, some (1/2)⟩,
   ⟨1, 0, "A", "Y", "b", "Information Technology", 1, 2, some 1, some (1/2)⟩]

/-- Sector categories of the two-row consecutive-days dataset. -/
def c2cats : List String := ["S"]

/-- Sector categories of the stage-6 bug dataset. -/
def c5cats : List String := ["S"]

/-- One-row blotter on which the whole pipeline succeeds. -/
def c7raw : List RawRow :=
  [⟨0, 0, "A", "X", "a", "S", "1", "2"⟩]

/-- Stage-2 output for `c7raw`. -/
def c7parsed : List String × List Row := ((pipeTo2 c7raw).toOption).getD ([], [])

/-- Sector categories of the one-row pipeline run. -/
def c7cats : List String := c7parsed.1

/-- Typed rows of the one-row pipeline run after stage 2. -/
def c7rs : List Row := c7parsed.2

/-- The one-row dataset after stage 4. -/
def c7d4 : List Row := step4 c7cats (step3 true c7rs)

/-- The one-row dataset after stage 5. -/
def c7out : List Row := applyRet c7d4 0 (totalFund c7d4 0)

/-- Two typed rows without ticker values, as stage 3 receives them when the
input file has no ticker column. -/
def c8rows : List Row :=
  [⟨0, 0, "A", "", "a", "S", 1, 10, none, none⟩,
   ⟨1, 0, "B", "", "b", "S", 2, 20, none, none⟩]

/-- One raw row whose sector is "Technology" and whose money columns carry
a fractional and a plain decimal literal. -/
def c9raw0 : RawRow := ⟨0, 0, "A", "X", "a", "Technology", "12.5", "300"⟩

/-- Fallback row used to name the parsed form of `c9raw0`. -/
def c9fallback : Row := ⟨0, 0, "", "", "", "", 0, 0, none, none⟩

/-- The row `parseRow` produces from `c9raw0`. -/
def c9row : Row := (parseRow c9raw0).getD c9fallback

/-- Two well-behaved stages on a toy dataset type, both returning the
object they were passed. -/
def c10stages : List (Stage Nat) := [⟨fun n => n + 1, true⟩, ⟨fun n => n * 2, true⟩]

/-- A well-behaved stage preceding the offender in the C4 witness. -/
def c4pre : Stage Nat := ⟨fun n => n + 1, true⟩

/-- A stage that returns a fresh object instead of mutating in place. -/
def c4bad : Stage Nat := ⟨fun n => n + 2, false⟩

/-- A stage sitting after the offender; it must never run. -/
def c4post : Stage Nat := ⟨fun n => n + 3, true⟩

/-! ## Generic helper lemmas -/

theorem insertOrdered_perm (le : α → α → Bool) (a : α) (l : List α) :
    List.Perm (insertOrdered le a l) (a :: l) := by
  induction l with
  | nil => simp [insertOrdered]
  | cons b bs ih =>
    by_cases h : le a b = true
    · simp [insertOrdered, h]
    · simp only [insertOrdered, h, Bool.false_eq_true, if_false]
      exact ((ih.cons b).trans (List.Perm.swap a b bs))

theorem insSort_perm (le : α → α → Bool) (l : List α) :
    List.Perm (insSort le l) l := by
  induction l with
  | nil => simp [insSort]
  | cons a as ih =>
    exact (insertOrdered_perm le a (insSort le as)).trans (ih.cons a)

theorem mem_insSort (le : α → α → Bool) (l : List α) (x : α) :
    x ∈ insSort le l ↔ x ∈ l :=
  (insSort_perm le l).mem_iff

theorem insSort_nodup (le : α → α → Bool) (l : List α) (h : l.Nodup) :
    (insSort le l).Nodup :=
  ((insSort_perm le l).nodup_iff).mpr h

theorem find?_eq_some_of_unique {p : α → Bool} {l : List α} {a : α}
    (ha : a ∈ l) (hpa : p a = true) (hu : ∀ b ∈ l, p b = true → b = a) :
    l.find? p = some a := by
  induction l with
  | nil => cases ha
  | cons b bs ih =>
    by_cases hb : p b = true
    · have heq : b = a := hu b (List.mem_cons_self b bs) hb
      subst heq
      simp [List.find?, hb]
    · have hmem : a ∈ bs := by
        rcases List.mem_cons.mp ha with heq | hmem
        · exact absurd (heq ▸ hpa) hb
        · exact hmem
      simp only [List.find?, hb]
      exact ih hmem (fun c hc hpc => hu c (List.mem_cons_of_mem b hc) hpc)

theorem foldl_pick_mem (pick : α → α → α)
    (hp : ∀ a b, pick a b = a ∨ pick a b = b) (l : List α) (a : α) :
    l.foldl pick a = a ∨ l.foldl pick a ∈ l := by
  induction l generalizing a with
  | nil => simp
  | cons b bs ih =>
    simp only [List.foldl_cons]
    rcases ih (pick a b) with h | h
    · rw [h]
      rcases hp a b with hab | hab
      · exact Or.inl hab
      · exact Or.inr (by rw [hab]; exact List.mem_cons_self b bs)
    · exact Or.inr (List.mem_cons_of_mem b h)

theorem foldl_minBy_le (le : α → α → Bool)
    (htot : ∀ a b, le a b = true ∨ le b a = true)
    (htrans : ∀ a b c, le a b = true → le b c = true → le a c = true)
    (l : List α) (a : α) :
    le (l.foldl (fun x y => if le x y then x else y) a) a = true ∧
      ∀ b ∈ l, le (l.foldl (fun x y => if le x y then x else y) a) b = true := by
  induction l generalizing a with
  | nil =>
    refine ⟨?_, by simp⟩
    rcases htot a a with h | h <;> exact h
  | cons b bs ih =>
    simp only [List.foldl_cons]
    by_cases hab : le a b = true
    · have hfold : (if le a b then a else b) = a := by simp [hab]
      rw [hfold]
      rcases ih a with ⟨h1, h2⟩
      refine ⟨h1, ?_⟩
      intro c hc
      rcases List.mem_cons.mp hc with heq | hc
      · exact heq ▸ htrans _ _ _ h1 hab
      · exact h2 c hc
    · have hfold : (if le a b then a else b) = b := by simp [hab]
      rw [hfold]
      rcases ih b with ⟨h1, h2⟩
      have hba : le b a = true := by
        rcases htot a b with h | h
        · exact absurd h hab
        · exact h
      refine ⟨htrans _ _ _ h1 hba, ?_⟩
      intro c hc
      rcases List.mem_cons.mp hc with heq | hc
      · exact heq ▸ h1
      · exact h2 c hc

theorem lexLe_total : ∀ as bs : List Char, lexLe as bs = true ∨ lexLe bs as = true := by
  intro as
  induction as with
  | nil => intro bs; left; rfl
  | cons a as ih =>
    intro bs
    cases bs with
    | nil => right; rfl
    | cons b bs =>
      by_cases h1 : a.toNat < b.toNat
      · left; simp [lexLe, h1]
      · by_cases h2 : b.toNat < a.toNat
        · right; simp [lexLe, h2]
        · have heq : ¬ a.toNat < b.toNat ∧ ¬ b.toNat < a.toNat := ⟨h1, h2⟩
          rcases ih bs with h | h
          · left; simp [lexLe, h1, h2, h]
          · right; simp [lexLe, h1, h2, h]

theorem lexLe_trans : ∀ as bs cs : List Char,
    lexLe as bs = true → lexLe bs cs = true → lexLe as cs = true := by
  intro as
  induction as with
  | nil => intro bs cs _ _; rfl
  | cons a as ih =>
    intro bs cs hab hbc
    cases bs with
    | nil => simp [lexLe] at hab
    | cons b bs =>
      cases cs with
      | nil => simp [lexLe] at hbc
      | cons c cs =>
        simp only [lexLe] at hab hbc ⊢
        by_cases h1 : a.toNat < b.toNat
        · by_cases h2 : b.toNat < c.toNat
          · simp [show a.toNat < c.toNat by omega]
          · by_cases h3 : c.toNat < b.toNat
            · simp [h2, h3] at hbc
            · simp [show a.toNat < c.toNat by omega]
        · by_cases h4 : b.toNat < a.toNat
          · simp [h1, h4] at hab
          · by_cases h2 : b.toNat < c.toNat
            · simp [show a.toNat < c.toNat by omega]
            · by_cases h3 : c.toNat < b.toNat
              · simp [h2, h3] at hbc
              · have hac1 : ¬ a.toNat < c.toNat := by omega
                have hac2 : ¬ c.toNat < a.toNat := by omega
                simp only [h1, if_false, h4, hac1, hac2] at hab ⊢
                simp only [h2, if_false, h3] at hbc
                exact ih bs cs hab hbc

theorem strLeB_total (a b : String) : strLeB a b = true ∨ strLeB b a = true :=
  lexLe_total a.data b.data

theorem strLeB_trans (a b c : String) :
    strLeB a b = true → strLeB b c = true → strLeB a c = true :=
  lexLe_trans a.data b.data c.data

theorem minNatD_mem (d : Nat) (xs : List Nat) (h : xs ≠ []) : minNatD d xs ∈ xs := by
  cases xs with
  | nil => exact absurd rfl h
  | cons x l =>
    rcases foldl_pick_mem Nat.min (fun a b => min_choice a b) l x with h1 | h1
    · exact List.mem_cons.mpr (Or.inl (by simpa [minNatD] using h1))
    · exact List.mem_cons.mpr (Or.inr (by simpa [minNatD] using h1))

theorem foldl_nat_min_le (l : List Nat) (a : Nat) :
    l.foldl Nat.min a ≤ a ∧ ∀ x ∈ l, l.foldl Nat.min a ≤ x := by
  induction l generalizing a with
  | nil => simp
  | cons b bs ih =>
    simp only [List.foldl_cons]
    rcases ih (Nat.min a b) with ⟨h1, h2⟩
    have hma : Nat.min a b ≤ a := Nat.min_le_left a b
    have hmb : Nat.min a b ≤ b := Nat.min_le_right a b
    refine ⟨le_trans h1 hma, ?_⟩
    intro x hx
    rcases List.mem_cons.mp hx with heq | hx
    · subst heq; exact le_trans h1 hmb
    · exact h2 x hx

theorem minNatD_le (d : Nat) (xs : List Nat) : ∀ x ∈ xs, minNatD d xs ≤ x := by
  cases xs with
  | nil => simp
  | cons x l =>
    intro y hy
    rcases List.mem_cons.mp hy with heq | hy
    · exact heq ▸ (foldl_nat_min_le l x).1
    · exact (foldl_nat_min_le l x).2 y hy

theorem minStrD_mem (d : String) (xs : List String) (h : xs ≠ []) : minStrD d xs ∈ xs := by
  cases xs with
  | nil => exact absurd rfl h
  | cons x l =>
    rcases foldl_pick_mem (fun a b => if strLeB a b then a else b)
        (fun a b => by by_cases hab : strLeB a b = true <;> simp [hab]) l x with h1 | h1
    · exact List.mem_cons.mpr (Or.inl (by simpa [minStrD] using h1))
    · exact List.mem_cons.mpr (Or.inr (by simpa [minStrD] using h1))

theorem minStrD_le (d : String) (xs : List String) :
    ∀ x ∈ xs, strLeB (minStrD d xs) x = true := by
  cases xs with
  | nil => simp
  | cons x l =>
    intro y hy
    rcases foldl_minBy_le strLeB strLeB_total strLeB_trans l x with ⟨h1, h2⟩
    rcases List.mem_cons.mp hy with heq | hy
    · exact heq ▸ h1
    · exact h2 y hy

theorem minCatD_mem (cats : List String) (d : String) (xs : List String) (h : xs ≠ []) :
    minCatD cats d xs ∈ xs := by
  cases xs with
  | nil => exact absurd rfl h
  | cons x l =>
    rcases foldl_pick_mem (fun a b => if catRank cats b < catRank cats a then b else a)
        (fun a b => by
          by_cases hab : catRank cats b < catRank cats a <;> simp [hab]) l x with h1 | h1
    · exact List.mem_cons.mpr (Or.inl (by simpa [minCatD] using h1))
    · exact List.mem_cons.mpr (Or.inr (by simpa [minCatD] using h1))

theorem foldl_catMin_le (cats : List String) (l : List String) (a : String) :
    catRank cats (l.foldl (fun x y => if catRank cats y < catRank cats x then y else x) a)
        ≤ catRank cats a ∧
      ∀ b ∈ l,
        catRank cats (l.foldl (fun x y => if catRank cats y < catRank cats x then y else x) a)
          ≤ catRank cats b := by
  induction l generalizing a with
  | nil => simp
  | cons b bs ih =>
    simp only [List.foldl_cons]
    by_cases hb : catRank cats b < catRank cats a
    · have hfold : (if catRank cats b < catRank cats a then b else a) = b := by simp [hb]
      rw [hfold]
      rcases ih b with ⟨h1, h2⟩
      refine ⟨by omega, ?_⟩
      intro c hc
      rcases List.mem_cons.mp hc with heq | hc
      · exact heq ▸ h1
      · exact h2 c hc
    · have hfold : (if catRank cats b < catRank cats a then b else a) = a := by simp [hb]
      rw [hfold]
      rcases ih a with ⟨h1, h2⟩
      refine ⟨h1, ?_⟩
      intro c hc
      rcases List.mem_cons.mp hc with heq | hc
      · subst heq; omega
      · exact h2 c hc

theorem minCatD_le (cats : List String) (d : String) (xs : List String) :
    ∀ x ∈ xs, catRank cats (minCatD cats d xs) ≤ catRank cats x := by
  cases xs with
  | nil => simp
  | cons x l =>
    intro y hy
    rcases foldl_catMin_le cats l x with ⟨h1, h2⟩
    rcases List.mem_cons.mp hy with heq | hy
    · exact heq ▸ h1
    · exact h2 y hy

theorem decodeDigits_append_digit (cs : List Char) (c : Char) :
    decodeDigits (cs ++ [c]) = decodeDigits cs * 10 + (c.toNat - 48) := by
  simp [decodeDigits, List.foldl_append]

theorem digitChar_decode (m : Nat) (h : m < 10) : (Nat.digitChar m).toNat - 48 = m := by
  interval_cases m <;> rfl

theorem decDigits_decode : ∀ fuel n, n ≤ fuel → decodeDigits (decDigits fuel n) = n := by
  intro fuel
  induction fuel with
  | zero =>
    intro n h
    have : n = 0 := Nat.le_zero.mp h
    subst this
    rfl
  | succ f ih =>
    intro n h
    cases n with
    | zero => rfl
    | succ m =>
      have hdiv : (m + 1) / 10 ≤ f := by
        have : (m + 1) / 10 < m + 1 := Nat.div_lt_self (Nat.succ_pos m) (by omega)
        omega
      have hmod : (m + 1) % 10 < 10 := Nat.mod_lt _ (by omega)
      calc decodeDigits (decDigits (f + 1) (m + 1))
          = decodeDigits (decDigits f ((m + 1) / 10) ++ [Nat.digitChar ((m + 1) % 10)]) := rfl
        _ = decodeDigits (decDigits f ((m + 1) / 10)) * 10
              + ((Nat.digitChar ((m + 1) % 10)).toNat - 48) := decodeDigits_append_digit _ _
        _ = (m + 1) / 10 * 10 + (m + 1) % 10 := by
              rw [ih _ hdiv, digitChar_decode _ hmod]
        _ = m + 1 := by omega

theorem decRepr_decode (n : Nat) : decodeDigits (decRepr n).data = n := by
  by_cases h : n = 0
  · subst h; rfl
  · simp only [decRepr, h, if_false]
    exact decDigits_decode n n (le_refl n)

theorem decRepr_injective : Function.Injective decRepr := by
  intro a b h
  have := congrArg (fun s => decodeDigits s.data) h
  simpa [decRepr_decode] using this

theorem tickerOf_injective :
    Function.Injective (fun n => "ticker_" ++ decRepr n) := by
  intro a b h
  have hdata := congrArg String.data h
  simp only [String.data_append] at hdata
  have : (decRepr a).data = (decRepr b).data := List.append_cancel_left hdata
  exact decRepr_injective (String.ext this)

/-! ## Stage 4 structure lemmas -/

theorem groupDates_nodup (part : List Row) : (groupDates part).Nodup :=
  insSort_nodup _ _ (List.nodup_dedup _)

theorem mem_groupDates {part : List Row} {d : Int} :
    d ∈ groupDates part ↔ ∃ r ∈ part, r.date = d := by
  unfold groupDates
  rw [mem_insSort, List.mem_dedup, List.mem_map]

theorem mem_partitionLT {df : List Row} {k t : String} {r : Row} :
    r ∈ partitionLT df k t ↔ r ∈ df ∧ r.lkid = k ∧ r.ticker = t := by
  unfold partitionLT
  rw [List.mem_filter]
  simp [Bool.and_eq_true, beq_iff_eq, and_assoc]

theorem mem_dateClass {part : List Row} {d : Int} {r : Row} :
    r ∈ dateClass part d ↔ r ∈ part ∧ r.date = d := by
  unfold dateClass
  rw [List.mem_filter]
  simp [beq_iff_eq]

theorem mem_ltKeys {df : List Row} {k : String × String} :
    k ∈ ltKeys df ↔ ∃ r ∈ df, (r.lkid, r.ticker) = k := by
  unfold ltKeys
  rw [mem_insSort, List.mem_dedup, List.mem_map]

theorem collapseAt_date (cats : List String) (part : List Row) (d : Int) :
    (collapseAt cats part d).date = d := rfl

theorem collapseAt_idx (cats : List String) (part : List Row) (d : Int) :
    (collapseAt cats part d).idx = minNatD 0 ((dateClass part d).map (·.idx)) := rfl

theorem p4At_idx (cats : List String) (part : List Row) (d : Int) :
    (p4At cats part d).idx = (collapseAt cats part d).idx := by
  unfold p4At
  cases ((collapsedOf cats part).find? (fun c2 => c2.date == d + 1)).map (·.exposure) <;> rfl

theorem part4_eq_map (cats : List String) (part : List Row) :
    part4 cats part = (groupDates part).map (p4At cats part) := by
  unfold part4 imputeOpen shiftOpen collapsedOf
  simp only [List.map_map]
  apply List.map_congr_left
  intro d _
  simp only [Function.comp]
  show (match ((((groupDates part).map (collapseAt cats part)).find?
        (fun c2 => c2.date == (collapseAt cats part d).date + 1)).map (·.exposure)) with
      | some v => { collapseAt cats part d with openLiq := some v }
      | none => { collapseAt cats part d with
          openLiq := some ((collapseAt cats part d).exposure - (collapseAt cats part d).pal) })
      = p4At cats part d
  unfold p4At
  simp only [collapsedOf]
  rw [collapseAt_date]

theorem collapsedOf_find? (cats : List String) (part : List Row) (e : Int) :
    (collapsedOf cats part).find? (fun c => c.date == e) =
      if e ∈ groupDates part then some (collapseAt cats part e) else none := by
  unfold collapsedOf
  rw [List.find?_map]
  have hfun : ((fun c : CRow => c.date == e) ∘ collapseAt cats part) = fun d => d == e := rfl
  rw [hfun]
  by_cases h : e ∈ groupDates part
  · rw [if_pos h]
    rw [find?_eq_some_of_unique h (by simp) (fun b _ hb => by simpa [beq_iff_eq] using hb)]
    rfl
  · rw [if_neg h]
    rw [List.find?_eq_none.mpr (fun d hd => by
      simp only [beq_iff_eq]
      intro he
      exact h (he ▸ hd))]
    rfl

theorem p4At_openLiq (cats : List String) (part : List Row) (d : Int) :
    (p4At cats part d).openLiq =
      some (if (d + 1) ∈ groupDates part
            then (collapseAt cats part (d + 1)).exposure
            else (collapseAt cats part d).exposure - (collapseAt cats part d).pal) := by
  unfold p4At
  rw [collapsedOf_find? cats part (d + 1)]
  by_cases h : (d + 1) ∈ groupDates part
  · rw [if_pos h, if_pos h]
    rfl
  · rw [if_neg h, if_neg h]
    rfl

theorem mem_step4Updates {cats : List String} {df : List Row} {c : CRow} :
    c ∈ step4Updates cats df ↔
      ∃ k ∈ ltKeys df, c ∈ part4 cats (partitionLT df k.1 k.2) := by
  unfold step4Updates
  rw [List.mem_flatten]
  constructor
  · rintro ⟨l, hl, hc⟩
    rcases List.mem_map.mp hl with ⟨k, hk, rfl⟩
    exact ⟨k, hk, hc⟩
  · rintro ⟨k, hk, hc⟩
    exact ⟨part4 cats (partitionLT df k.1 k.2), List.mem_map.mpr ⟨k, hk, rfl⟩, hc⟩

theorem step4_length (cats : List String) (df : List Row) :
    (step4 cats df).length = df.length := by
  unfold step4
  rw [List.length_map, List.enum_length]

theorem dateClass_map_idx_ne_nil {part : List Row} {d : Int} (h : d ∈ groupDates part) :
    (dateClass part d).map (·.idx) ≠ [] := by
  rcases mem_groupDates.mp h with ⟨r, hr, hd⟩
  have hmem : r ∈ dateClass part d := mem_dateClass.mpr ⟨hr, hd⟩
  intro hnil
  rw [List.map_eq_nil_iff] at hnil
  rw [hnil] at hmem
  cases hmem

theorem idx_at (df : List Row) (hIdx : df.map (·.idx) = List.range df.length)
    (i : Nat) (hi : i < df.length) : (df.get ⟨i, hi⟩).idx = i := by
  have h := congrArg (fun l : List Nat => l[i]?) hIdx
  simp only [List.getElem?_map, List.getElem?_eq_getElem hi,
    List.getElem?_range hi, Option.map_some] at h
  rw [List.get_eq_getElem]
  exact Option.some.inj h

theorem step4Updates_find? (cats : List String) (df : List Row)
    (hIdx : df.map (·.idx) = List.range df.length)
    (i : Nat) (hi : i < df.length)
    (hrep : (collapseAt cats
        (partitionLT df (df.get ⟨i, hi⟩).lkid (df.get ⟨i, hi⟩).ticker)
        (df.get ⟨i, hi⟩).date).idx = i) :
    (step4Updates cats df).find? (fun c => c.idx == i) =
      some (p4At cats
        (partitionLT df (df.get ⟨i, hi⟩).lkid (df.get ⟨i, hi⟩).ticker)
        (df.get ⟨i, hi⟩).date) := by
  have hrdf : df.get ⟨i, hi⟩ ∈ df := List.get_mem df i hi
  have hrP : df.get ⟨i, hi⟩ ∈ partitionLT df (df.get ⟨i, hi⟩).lkid (df.get ⟨i, hi⟩).ticker :=
    mem_partitionLT.mpr ⟨hrdf, rfl, rfl⟩
  have hdmem : (df.get ⟨i, hi⟩).date ∈
      groupDates (partitionLT df (df.get ⟨i, hi⟩).lkid (df.get ⟨i, hi⟩).ticker) :=
    mem_groupDates.mpr ⟨df.get ⟨i, hi⟩, hrP, rfl⟩
  apply find?_eq_some_of_unique
  · exact mem_step4Updates.mpr ⟨((df.get ⟨i, hi⟩).lkid, (df.get ⟨i, hi⟩).ticker),
      mem_ltKeys.mpr ⟨df.get ⟨i, hi⟩, hrdf, rfl⟩,
      by rw [part4_eq_map]; exact List.mem_map.mpr ⟨(df.get ⟨i, hi⟩).date, hdmem, rfl⟩⟩
  · simp only [p4At_idx, beq_iff_eq]
    exact hrep
  · intro c hc hpc
    rcases mem_step4Updates.mp hc with ⟨k, _, hcpart⟩
    rw [part4_eq_map] at hcpart
    rcases List.mem_map.mp hcpart with ⟨d2, hd2, rfl⟩
    have hcidx : (collapseAt cats (partitionLT df k.1 k.2) d2).idx = i := by
      rw [← p4At_idx]
      exact beq_iff_eq.mp hpc
    have hmem := minNatD_mem 0 _ (dateClass_map_idx_ne_nil hd2)
    rw [collapseAt_idx] at hcidx
    rw [hcidx] at hmem
    rcases List.mem_map.mp hmem with ⟨q, hqclass, hqidx⟩
    rcases mem_dateClass.mp hqclass with ⟨hqpart, hqdate⟩
    rcases mem_partitionLT.mp hqpart with ⟨hqdf, hql, hqt⟩
    have hN : (df.map (·.idx)).Nodup := by rw [hIdx]; exact List.nodup_range _
    have hridx : (df.get ⟨i, hi⟩).idx = i := idx_at df hIdx i hi
    have hqr : q = df.get ⟨i, hi⟩ :=
      List.inj_on_of_nodup_map hN hqdf hrdf (by rw [hqidx, hridx])
    subst hqr
    have hk : k = ((df.get ⟨i, hi⟩).lkid, (df.get ⟨i, hi⟩).ticker) := by
      cases k
      simp only [Prod.mk.injEq]
      exact ⟨hql.symm, hqt.symm⟩
    subst hk
    rw [← hqdate]

theorem step4_get (cats : List String) (df : List Row) (i : Nat) (hi : i < df.length) :
    (step4 cats df).get ⟨i, by rw [step4_length]; exact hi⟩ =
      (match (step4Updates cats df).find? (fun c => c.idx == i) with
      | some c =>
        { df.get ⟨i, hi⟩ with analyst := c.analyst, sector := c.sector,
                              pal := c.pal, exposure := c.exposure, openLiq := c.openLiq }
      | none => { df.get ⟨i, hi⟩ with openLiq := none }) := by
  rw [List.get_eq_getElem]
  unfold step4
  rw [List.getElem_map, List.getElem_enum]
  rw [List.get_eq_getElem]

/-- Central characterization of stage 4: the output row at a representative
position carries `open_liq` = the collapsed exposure of date `d + 1` when
the partition has a row dated exactly one day later, and the collapsed
`exposure - pal` of the row's own date otherwise. -/
theorem step4_openLiq_char (cats : List String) (df : List Row)
    (hIdx : df.map (·.idx) = List.range df.length)
    (i : Nat) (hi : i < df.length)
    (hrep : (collapseAt cats
        (partitionLT df (df.get ⟨i, hi⟩).lkid (df.get ⟨i, hi⟩).ticker)
        (df.get ⟨i, hi⟩).date).idx = i) :
    ((step4 cats df).get ⟨i, by rw [step4_length]; exact hi⟩).openLiq =
      some (if ((df.get ⟨i, hi⟩).date + 1) ∈
          groupDates (partitionLT df (df.get ⟨i, hi⟩).lkid (df.get ⟨i, hi⟩).ticker)
        then (collapseAt cats
            (partitionLT df (df.get ⟨i, hi⟩).lkid (df.get ⟨i, hi⟩).ticker)
            ((df.get ⟨i, hi⟩).date + 1)).exposure
        else (collapseAt cats
            (partitionLT df (df.get ⟨i, hi⟩).lkid (df.get ⟨i, hi⟩).ticker)
            (df.get ⟨i, hi⟩).date).exposure -
          (collapseAt cats
            (partitionLT df (df.get ⟨i, hi⟩).lkid (df.get ⟨i, hi⟩).ticker)
            (df.get ⟨i, hi⟩).date).pal) := by
  rw [step4_get cats df i hi]
  rw [step4Updates_find? cats df hIdx i hi hrep]
  exact p4At_openLiq cats _ _

/-! ## Claim C1 -/

/-- C1 counterexample: in the partition of `c1df` the dates present are 0
and 2, so for the non-maximum date 0 the next date present is 2, whose
collapsed exposure is 20; the claim demands `open_liq = 20` there, but
stage 4 computes 10 - 1 = 9, because the shift matches only date 0 + 1 = 1,
which is absent, and the row is then imputed with `exposure - pal`. -/
theorem c1_counterexample :
    groupDates (partitionLT c1df "A" "X") = [0, 2]
  ∧ ((step4 c1cats c1df).get ⟨0, by decide⟩).openLiq = some 9
  ∧ (collapseAt c1cats (partitionLT c1df "A" "X") 2).exposure = 20
  ∧ ¬ ((step4 c1cats c1df).get ⟨0, by decide⟩).openLiq =
        some ((collapseAt c1cats (partitionLT c1df "A" "X") 2).exposure) := by
  have hchar := step4_openLiq_char c1cats c1df (by decide) 0 (by decide) (by decide)
  have hif : ¬ (((c1df.get ⟨0, by decide⟩).date + 1) ∈
      groupDates (partitionLT c1df (c1df.get ⟨0, by decide⟩).lkid
        (c1df.get ⟨0, by decide⟩).ticker)) := by decide
  rw [if_neg hif] at hchar
  have h9 : ((step4 c1cats c1df).get ⟨0, by decide⟩).openLiq = some 9 := by
    rw [hchar]
    norm_num [collapseAt, dateClass, partitionLT, c1df, minNatD, minStrD, minCatD]
  have h20 : (collapseAt c1cats (partitionLT c1df "A" "X") 2).exposure = 20 := by
    norm_num [collapseAt, dateClass, partitionLT, c1df]
  refine ⟨by decide, h9, h20, ?_⟩
  rw [h9, h20]
  intro hcontra
  have : (9 : Rat) = 20 := Option.some.inj hcontra
  norm_num at this

/-- C1 (amended): in stage 4, for a representative row of a partition
(after same-date collapsing), if its date `d` is not the maximum date of
the partition then `open_liq` equals the collapsed exposure of date `d + 1`
when a row dated exactly one calendar day later exists, and otherwise
(a calendar gap) is imputed as the row's own collapsed `exposure - pal`;
for the maximum date `open_liq = exposure - pal` as originally claimed. -/
theorem c1_amended_thm (cats : List String) (df : List Row)
    (hIdx : df.map (·.idx) = List.range df.length)
    (i : Nat) (hi : i < df.length)
    (hrep : (collapseAt cats
        (partitionLT df (df.get ⟨i, hi⟩).lkid (df.get ⟨i, hi⟩).ticker)
        (df.get ⟨i, hi⟩).date).idx = i) :
    ((∃ d2 ∈ groupDates (partitionLT df (df.get ⟨i, hi⟩).lkid (df.get ⟨i, hi⟩).ticker),
        (df.get ⟨i, hi⟩).date < d2) →
      ((step4 cats df).get ⟨i, by rw [step4_length]; exact hi⟩).openLiq =
        some (if ((df.get ⟨i, hi⟩).date + 1) ∈
            groupDates (partitionLT df (df.get ⟨i, hi⟩).lkid (df.get ⟨i, hi⟩).ticker)
          then (collapseAt cats
              (partitionLT df (df.get ⟨i, hi⟩).lkid (df.get ⟨i, hi⟩).ticker)
              ((df.get ⟨i, hi⟩).date + 1)).exposure
          else (collapseAt cats
              (partitionLT df (df.get ⟨i, hi⟩).lkid (df.get ⟨i, hi⟩).ticker)
              (df.get ⟨i, hi⟩).date).exposure -
            (collapseAt cats
              (partitionLT df (df.get ⟨i, hi⟩).lkid (df.get ⟨i, hi⟩).ticker)
              (df.get ⟨i, hi⟩).date).pal))
  ∧ ((∀ d2 ∈ groupDates (partitionLT df (df.get ⟨i, hi⟩).lkid (df.get ⟨i, hi⟩).ticker),
        d2 ≤ (df.get ⟨i, hi⟩).date) →
      ((step4 cats df).get ⟨i, by rw [step4_length]; exact hi⟩).openLiq =
        some ((collapseAt cats
            (partitionLT df (df.get ⟨i, hi⟩).lkid (df.get ⟨i, hi⟩).ticker)
            (df.get ⟨i, hi⟩).date).exposure -
          (collapseAt cats
            (partitionLT df (df.get ⟨i, hi⟩).lkid (df.get ⟨i, hi⟩).ticker)
            (df.get ⟨i, hi⟩).date).pal)) := by
  constructor
  · intro _
    exact step4_openLiq_char cats df hIdx i hi hrep
  · intro hmax
    have hnotin : ¬ (((df.get ⟨i, hi⟩).date + 1) ∈
        groupDates (partitionLT df (df.get ⟨i, hi⟩).lkid (df.get ⟨i, hi⟩).ticker)) := by
      intro hin
      have := hmax _ hin
      omega
    have hchar := step4_openLiq_char cats df hIdx i hi hrep
    rw [if_neg hnotin] at hchar
    exact hchar

/-- C1 witness: the amended theorem applied to the gap dataset at its
first row, whose date 0 is not the maximum; since no row is dated 1, the
slot is imputed with the collapsed `exposure - pal` of date 0. -/
theorem c1_amended_witness :
    (c1df.map (·.idx) = List.range c1df.length
      ∧ (collapseAt c1cats (partitionLT c1df "A" "X") 0).idx = 0
      ∧ (∃ d2 ∈ groupDates (partitionLT c1df "A" "X"), (0 : Int) < d2))
  ∧ ((step4 c1cats c1df).get ⟨0, by decide⟩).openLiq =
      some (if ((1 : Int)) ∈ groupDates (partitionLT c1df "A" "X")
        then (collapseAt c1cats (partitionLT c1df "A" "X") 1).exposure
        else (collapseAt c1cats (partitionLT c1df "A" "X") 0).exposure -
          (collapseAt c1cats (partitionLT c1df "A" "X") 0).pal) :=
  ⟨⟨by decide, by decide, by decide⟩,
    (c1_amended_thm c1cats c1df (by decide) 0 (by decide) (by decide)).1 (by decide)⟩

/-! ## Claim C2 -/

/-- C2: in stage 4, for a representative row (the collapsed row) of a
(`lkid`,`ticker`) partition dated `d`: when the partition contains a row
dated exactly one calendar day later, `open_liq` equals that collapsed
row's exposure; otherwise `open_liq` is imputed as the row's own collapsed
`exposure - pal`. -/
theorem c2_thm (cats : List String) (df : List Row)
    (hIdx : df.map (·.idx) = List.range df.length)
    (i : Nat) (hi : i < df.length)
    (hrep : (collapseAt cats
        (partitionLT df (df.get ⟨i, hi⟩).lkid (df.get ⟨i, hi⟩).ticker)
        (df.get ⟨i, hi⟩).date).idx = i) :
    ((((df.get ⟨i, hi⟩).date + 1) ∈
        groupDates (partitionLT df (df.get ⟨i, hi⟩).lkid (df.get ⟨i, hi⟩).ticker) →
      ((step4 cats df).get ⟨i, by rw [step4_length]; exact hi⟩).openLiq =
        some ((collapseAt cats
            (partitionLT df (df.get ⟨i, hi⟩).lkid (df.get ⟨i, hi⟩).ticker)
            ((df.get ⟨i, hi⟩).date + 1)).exposure))
  ∧ (¬ (((df.get ⟨i, hi⟩).date + 1) ∈
        groupDates (partitionLT df (df.get ⟨i, hi⟩).lkid (df.get ⟨i, hi⟩).ticker)) →
      ((step4 cats df).get ⟨i, by rw [step4_length]; exact hi⟩).openLiq =
        some ((collapseAt cats
            (partitionLT df (df.get ⟨i, hi⟩).lkid (df.get ⟨i, hi⟩).ticker)
            (df.get ⟨i, hi⟩).date).exposure -
          (collapseAt cats
            (partitionLT df (df.get ⟨i, hi⟩).lkid (df.get ⟨i, hi⟩).ticker)
            (df.get ⟨i, hi⟩).date).pal))) := by
  have hchar := step4_openLiq_char cats df hIdx i hi hrep
  constructor
  · intro hin
    rw [if_pos hin] at hchar
    exact hchar
  · intro hout
    rw [if_neg hout] at hchar
    exact hchar

/-! ## Stage 5 lemmas -/

theorem totalFund_applyRet (df : List Row) (d : Int) (t : Rat) (e : Int) :
    totalFund (applyRet df d t) e = totalFund df e := by
  unfold totalFund dayRows applyRet
  rw [List.filter_map, List.filterMap_map]
  have hfil : ((fun r : Row => r.date == e) ∘
      fun r : Row => if r.date == d then { r with ret := some (r.pal / t) } else r) =
      fun r : Row => r.date == e := by
    funext r
    by_cases h : (r.date == d) = true <;> simp [Function.comp, h]
  rw [hfil]
  have hol : ((fun r : Row => r.openLiq) ∘
      fun r : Row => if r.date == d then { r with ret := some (r.pal / t) } else r) =
      fun r : Row => r.openLiq := by
    funext r
    by_cases h : (r.date == d) = true <;> simp [Function.comp, h]
  rw [hol]

theorem applyRet_map_idx (df : List Row) (d : Int) (t : Rat) :
    (applyRet df d t).map (·.idx) = df.map (·.idx) := by
  unfold applyRet
  rw [List.map_map]
  apply List.map_congr_left
  intro r _
  by_cases h : r.date = d <;> simp [h]

theorem step5Go_error_of_zero :
    ∀ (ds : List Int) (df : List Row), (∃ d ∈ ds, totalFund df d = 0) →
      step5Go df ds = .error "decimal.DivisionByZero" := by
  intro ds
  induction ds with
  | nil =>
    rintro df ⟨d, hd, _⟩
    cases hd
  | cons d0 rest ih =>
    rintro df ⟨d, hd, hz⟩
    by_cases h0 : totalFund df d0 = 0
    · simp [step5Go, h0]
    · have hdrest : d ∈ rest := by
        rcases List.mem_cons.mp hd with heq | hmem
        · exact absurd (heq ▸ hz) h0
        · exact hmem
      simp only [step5Go, h0, if_false]
      exact ih _ ⟨d, hdrest, by rw [totalFund_applyRet]; exact hz⟩

theorem step5Go_ok_map_idx :
    ∀ (ds : List Int) (df out : List Row), step5Go df ds = .ok out →
      out.map (·.idx) = df.map (·.idx) := by
  intro ds
  induction ds with
  | nil =>
    intro df out h
    cases h
    rfl
  | cons d0 rest ih =>
    intro df out h
    by_cases h0 : totalFund df d0 = 0
    · simp [step5Go, h0] at h
    · simp only [step5Go, h0, if_false] at h
      rw [ih _ _ h, applyRet_map_idx]

/-! ## Claim C3 -/

/-- C3 counterexample: on a dataset whose only date partition has total
fund value zero, stage 5 does not complete with a not-a-number return; the
Decimal division raises and the stage aborts with an error. -/
theorem c3_counterexample :
    (dayRows c3df 0 ≠ [] ∧ totalFund c3df 0 = 0)
  ∧ step5 c3df = .error "decimal.DivisionByZero" := by
  have h0 : totalFund c3df 0 = 0 := by simp [totalFund, dayRows, c3df]
  refine ⟨⟨by decide, h0⟩, ?_⟩
  have hdates : dfDates c3df = [0] := by decide
  unfold step5
  rw [hdates]
  simp [step5Go, h0]

/-- C3 (amended): whenever some date partition of the dataset entering
stage 5 has total fund value zero, stage 5 raises the decimal
division-by-zero error and the run aborts; no not-a-number value is
produced or propagated. -/
theorem c3_amended_thm (df : List Row) (d : Int) (hd : d ∈ dfDates df)
    (hz : totalFund df d = 0) :
    step5 df = .error "decimal.DivisionByZero" :=
  step5Go_error_of_zero (dfDates df) df ⟨d, hd, hz⟩

/-- C3 witness: the amended theorem applied to the zero-fund dataset. -/
theorem c3_amended_witness :
    ((0 : Int) ∈ dfDates c3df ∧ totalFund c3df 0 = 0)
  ∧ step5 c3df = .error "decimal.DivisionByZero" :=
  ⟨⟨by decide, by simp [totalFund, dayRows, c3df]⟩,
    c3_amended_thm c3df 0 (by decide) (by simp [totalFund, dayRows, c3df])⟩

/-! ## Claim C4 -/

/-- C4: in eager (in-place) mode, a stage whose callable returns a dataset
object different from the one passed makes the run fail with the
RuntimeError of `df_task`, and the stages after it never execute (the run's
result is the same as if they were absent); a pipeline whose stages all
mutate in place and return the same object runs to completion. -/
theorem c4_thm :
    (∀ (D : Type) (pre post : List (Stage D)) (s : Stage D) (d : D),
        (∀ p ∈ pre, p.sameObj = true) → s.sameObj = false →
        runPipeline (pre ++ s :: post) d true = .error rebindErr
          ∧ runPipeline (pre ++ s :: post) d true = runPipeline (pre ++ [s]) d true)
  ∧ (∀ (D : Type) (stages : List (Stage D)) (d : D),
        (∀ p ∈ stages, p.sameObj = true) →
        runPipeline stages d true = .ok (composeStages stages d)) := by
  have herr : ∀ (D : Type) (pre post : List (Stage D)) (s : Stage D) (d : D),
      (∀ p ∈ pre, p.sameObj = true) → s.sameObj = false →
      runPipeline (pre ++ s :: post) d true = .error rebindErr := by
    intro D pre
    induction pre with
    | nil =>
      intro post s d _ hs
      simp [runPipeline, wrapContext, hs]
    | cons p ps ih =>
      intro post s d hall hs
      have hp : p.sameObj = true := hall p (List.mem_cons_self _ _)
      simp only [List.cons_append, runPipeline, wrapContext, hp, Bool.not_true,
        Bool.and_false, Bool.false_eq_true, if_false]
      exact ih post s (p.f d) (fun q hq => hall q (List.mem_cons_of_mem _ hq)) hs
  have hok : ∀ (D : Type) (stages : List (Stage D)) (d : D),
      (∀ p ∈ stages, p.sameObj = true) →
      runPipeline stages d true = .ok (composeStages stages d) := by
    intro D stages
    induction stages with
    | nil => intro d _; rfl
    | cons s rest ih =>
      intro d hall
      have hs : s.sameObj = true := hall s (List.mem_cons_self _ _)
      simp only [runPipeline, wrapContext, hs, Bool.not_true, Bool.and_false,
        Bool.false_eq_true, if_false]
      have := ih (s.f d) (fun q hq => hall q (List.mem_cons_of_mem _ hq))
      rw [this]
      rfl
  refine ⟨fun D pre post s d hall hs => ⟨herr D pre post s d hall hs, ?_⟩, hok⟩
  rw [herr D pre post s d hall hs, herr D pre [] s d hall hs]

/-- C4 witness: a three-stage eager run whose middle stage rebinds the
dataset fails with the RuntimeError and ignores the final stage. -/
theorem c4_witness :
    ((∀ p ∈ [c4pre], p.sameObj = true) ∧ c4bad.sameObj = false)
  ∧ runPipeline ([c4pre] ++ c4bad :: [c4post]) (0 : Nat) true = .error rebindErr
  ∧ runPipeline ([c4pre] ++ c4bad :: [c4post]) (0 : Nat) true =
      runPipeline ([c4pre] ++ [c4bad]) (0 : Nat) true :=
  ⟨⟨by decide, by decide⟩,
    (c4_thm.1 Nat [c4pre] [c4post] c4bad 0 (by decide) (by decide)).1,
    (c4_thm.1 Nat [c4pre] [c4post] c4bad 0 (by decide) (by decide)).2⟩

/-! ## Claim C10 -/

/-- C10: whenever an eager (in-place) run of the pipeline completes, the
copy-mode run on the same input completes with the identical dataset value,
and both equal the plain composition of the stage value functions. -/
theorem c10_thm (D : Type) (stages : List (Stage D)) (d : D) (out : D)
    (h : runPipeline stages d true = .ok out) :
    runPipeline stages d false = .ok out ∧ out = composeStages stages d := by
  induction stages generalizing d with
  | nil =>
    cases h
    exact ⟨rfl, rfl⟩
  | cons s rest ih =>
    by_cases hs : s.sameObj = true
    · simp only [runPipeline, wrapContext, hs, Bool.not_true, Bool.and_false,
        Bool.false_eq_true, if_false, Bool.false_and] at h ⊢
      exact ih (s.f d) h
    · simp only [Bool.not_eq_true] at hs
      simp [runPipeline, wrapContext, hs] at h

/-- C10 witness: the two-stage toy pipeline gives the same final value in
eager and in copy mode. -/
theorem c10_witness :
    runPipeline c10stages 0 true = .ok 2
  ∧ runPipeline c10stages 0 false = .ok 2 ∧ 2 = composeStages c10stages 0 :=
  ⟨rfl, c10_thm Nat c10stages 0 2 rfl⟩

/-! ## Claim C8 -/

/-- C8: when the input has no ticker column, stage 3 gives every row the
synthetic ticker "ticker_" followed by the decimal rendering of its row
index, and rows with pairwise distinct row indices receive pairwise
distinct tickers. -/
theorem c8_thm (rows : List Row) (hN : (rows.map (·.idx)).Nodup) :
    step3 false rows = rows.map (fun r => { r with ticker := "ticker_" ++ decRepr r.idx })
  ∧ ((step3 false rows).map (·.ticker)).Nodup := by
  refine ⟨rfl, ?_⟩
  show ((rows.map fun r => { r with ticker := "ticker_" ++ decRepr r.idx }).map (·.ticker)).Nodup
  rw [List.map_map]
  have hcomp : ((fun r : Row => r.ticker) ∘ fun r : Row => { r with ticker := "ticker_" ++ decRepr r.idx })
      = (fun n => "ticker_" ++ decRepr n) ∘ (fun r : Row => r.idx) := rfl
  rw [hcomp, ← List.map_map]
  exact List.Nodup.map tickerOf_injective hN

/-- C8 witness: two rows with indices 0 and 1 receive the distinct
synthetic tickers "ticker_0" and "ticker_1". -/
theorem c8_witness :
    (c8rows.map (·.idx)).Nodup
  ∧ ((step3 false c8rows).map (·.ticker) = ["ticker_0", "ticker_1"])
  ∧ step3 false c8rows = c8rows.map (fun r => { r with ticker := "ticker_" ++ decRepr r.idx })
  ∧ ((step3 false c8rows).map (·.ticker)).Nodup :=
  ⟨by decide, by decide, (c8_thm c8rows (by decide)).1, (c8_thm c8rows (by decide)).2⟩

/-! ## Claim C5 -/

/-- C5 theorem (exhibiting the bug): the dataset `c5df` entering stage 6
has two distinct (`date`,`lkid`) pairs, yet stage 6 outputs a single row,
for the pair (0,"A") only.  `another_df` has RangeIndex 0..1, so
`_df.update` writes group 1's aggregate onto the row with row index 1 — a
collapsed-away duplicate whose `open_liq` is null — and `dropna` then
deletes it, silently losing the whole (1,"A") group (the comments in
`step6_agg_daily` describe a join on the pk, which the code does not
perform). -/
theorem c5_bug_eval :
    ((c5df.map fun r => (r.date, r.lkid)).dedup).length = 2
  ∧ (step6 c5cats c5df).length = 1
  ∧ (step6 c5cats c5df).map (fun w => (w.date, w.lkid)) = [(0, "A")] :=
  ⟨by decide, by decide, by decide⟩

/-! ## Claim C6 -/

theorem mem_dlKeys {df : List Row} {k : Int × String} :
    k ∈ dlKeys df ↔ ∃ r ∈ df, (r.date, r.lkid) = k := by
  unfold dlKeys
  rw [mem_insSort, List.mem_dedup, List.mem_map]

theorem mem_dlClass {df : List Row} {k : Int × String} {r : Row} :
    r ∈ dlClass df k ↔ r ∈ df ∧ r.date = k.1 ∧ r.lkid = k.2 := by
  unfold dlClass
  rw [List.mem_filter]
  simp [Bool.and_eq_true, beq_iff_eq, and_assoc]

/-- C6 counterexample: in the (0,"A") group of `c6df` the sectors present
are "Materials" and "Information Technology"; the smallest value present is
"Information Technology", but the aggregation returns "Materials", because
the ordered-categorical minimum compares by category position and the
renamed "Information Technology" inherited the position of "Technology"
after "Materials". -/
theorem c6_counterexample :
    sectorCatsOf c6raw = c6cats
  ∧ (0, "A") ∈ dlKeys c6df
  ∧ (aggAt c6cats c6df (0, "A")).sector = "Materials"
  ∧ minStrD "" ((dlClass c6df (0, "A")).map (·.sector)) = "Information Technology"
  ∧ ¬ ((aggAt c6cats c6df (0, "A")).sector =
        minStrD "" ((dlClass c6df (0, "A")).map (·.sector))) :=
  ⟨by decide, by decide, by decide, by decide, by decide⟩

/-- C6 (amended): for every (`date`,`lkid`) group of a dataset whose rows
are indexed by position: analyst is the smallest value present in
code-point order; sector is the value present with the smallest CATEGORY
rank (the ordered-categorical minimum — not always the alphabetically
smallest, since the renamed label keeps the original position of
"Technology" in the category order); pal, exposure and return are the
sums over the group; and the representative label chosen by
`get_first_index_label` equals the smallest row index present in the
group. -/
theorem c6_amended_thm (cats : List String) (df : List Row)
    (hIdx : df.map (·.idx) = List.range df.length)
    (k : Int × String) (hk : k ∈ dlKeys df) :
    ((aggAt cats df k).analyst ∈ (dlClass df k).map (·.analyst)
      ∧ ∀ s ∈ (dlClass df k).map (·.analyst), strLeB (aggAt cats df k).analyst s = true)
  ∧ ((aggAt cats df k).sector ∈ (dlClass df k).map (·.sector)
      ∧ ∀ s ∈ (dlClass df k).map (·.sector),
          catRank cats (aggAt cats df k).sector ≤ catRank cats s)
  ∧ (aggAt cats df k).pal = ((dlClass df k).map (·.pal)).sum
  ∧ (aggAt cats df k).exposure = ((dlClass df k).map (·.exposure)).sum
  ∧ (aggAt cats df k).ret = ((dlClass df k).filterMap (·.ret)).sum
  ∧ ((aggAt cats df k).firstLabel ∈ (dlClass df k).map (·.idx)
      ∧ ∀ j ∈ (dlClass df k).map (·.idx), (aggAt cats df k).firstLabel ≤ j) := by
  rcases mem_dlKeys.mp hk with ⟨r0, hr0df, hr0k⟩
  obtain ⟨hd0, hl0⟩ : r0.date = k.1 ∧ r0.lkid = k.2 := by
    rw [← hr0k]
    exact ⟨rfl, rfl⟩
  have hr0c : r0 ∈ dlClass df k := mem_dlClass.mpr ⟨hr0df, hd0, hl0⟩
  have hcne : dlClass df k ≠ [] := List.ne_nil_of_mem hr0c
  have hane : (dlClass df k).map (·.analyst) ≠ [] := by
    intro hnil
    rw [List.map_eq_nil_iff] at hnil
    exact hcne hnil
  have hsne : (dlClass df k).map (·.sector) ≠ [] := by
    intro hnil
    rw [List.map_eq_nil_iff] at hnil
    exact hcne hnil
  have hp0 : (fun r : Row => r.date == k.1 && r.lkid == k.2) r0 = true := by
    simp [beq_iff_eq, hd0, hl0]
  have hlt : df.findIdx (fun r : Row => r.date == k.1 && r.lkid == k.2) < df.length :=
    List.findIdx_lt_length_of_exists ⟨r0, hr0df, hp0⟩
  refine ⟨⟨minStrD_mem _ _ hane, minStrD_le _ _⟩,
    ⟨minCatD_mem cats _ _ hsne, minCatD_le cats _ _⟩, rfl, rfl, rfl, ?_, ?_⟩
  · have hpq := List.findIdx_getElem (w := hlt)
    have hqmem : df[df.findIdx (fun r : Row => r.date == k.1 && r.lkid == k.2)] ∈
        dlClass df k := by
      unfold dlClass
      exact List.mem_filter.mpr ⟨List.getElem_mem hlt, hpq⟩
    have hqidx : (df[df.findIdx (fun r : Row => r.date == k.1 && r.lkid == k.2)]).idx =
        df.findIdx (fun r : Row => r.date == k.1 && r.lkid == k.2) := by
      have := idx_at df hIdx _ hlt
      rw [List.get_eq_getElem] at this
      exact this
    exact List.mem_map.mpr ⟨_, hqmem, hqidx⟩
  · intro j hj
    rcases List.mem_map.mp hj with ⟨q, hqc, hqidx⟩
    rcases List.mem_iff_get.mp (mem_dlClass.mp hqc).1 with ⟨m, hm⟩
    have hmidx : q.idx = m.val := by
      rw [← hm]
      exact idx_at df hIdx m.val m.isLt
    have hpq : (fun r : Row => r.date == k.1 && r.lkid == k.2) q = true := by
      rcases mem_dlClass.mp hqc with ⟨_, h1, h2⟩
      simp [beq_iff_eq, h1, h2]
    have hge : df.findIdx (fun r : Row => r.date == k.1 && r.lkid == k.2) ≤ m.val := by
      by_contra hcon
      have hlt2 : m.val < df.findIdx (fun r : Row => r.date == k.1 && r.lkid == k.2) := by
        omega
      have := List.not_of_lt_findIdx hlt2
      rw [show df[m.val] = q by rw [← hm, List.get_eq_getElem]] at this
      have hq2 : (q.date == k.1 && q.lkid == k.2) = true := hpq
      rw [hq2] at this
      cases this
    show df.findIdx (fun r : Row => r.date == k.1 && r.lkid == k.2) ≤ j
    omega

/-! ## Stage 1-3 and pipeline lemmas -/

theorem parseRow_idx {r : RawRow} {row : Row} (h : parseRow r = some row) :
    row.idx = r.idx := by
  unfold parseRow at h
  cases hp : decimalOfString r.pal with
  | none => rw [hp] at h; cases h
  | some p =>
    cases he : decimalOfString r.exposure with
    | none => rw [hp, he] at h; cases h
    | some e =>
      rw [hp, he] at h
      cases h
      rfl

theorem mapM_parseRow_sound :
    ∀ (rows : List RawRow) (out : List Row), rows.mapM parseRow = some out →
      out.map (·.idx) = rows.map (·.idx)
      ∧ ∀ row ∈ out, ∃ r ∈ rows, parseRow r = some row := by
  intro rows
  induction rows with
  | nil =>
    intro out h
    cases h
    exact ⟨rfl, by simp⟩
  | cons r rs ih =>
    intro out h
    rw [List.mapM_cons] at h
    cases hp : parseRow r with
    | none => rw [hp] at h; cases h
    | some row =>
      cases hm : rs.mapM parseRow with
      | none => rw [hp, hm] at h; cases h
      | some outs =>
        rw [hp, hm] at h
        cases h
        rcases ih outs hm with ⟨hidx, hmem⟩
        constructor
        · simp only [List.map_cons, hidx, parseRow_idx hp]
        · intro row2 hrow2
          rcases List.mem_cons.mp hrow2 with heq | hmemtail
          · exact ⟨r, List.mem_cons_self _ _, heq ▸ hp⟩
          · rcases hmem row2 hmemtail with ⟨r2, hr2, hpr2⟩
            exact ⟨r2, List.mem_cons_of_mem _ hr2, hpr2⟩

theorem step2_ok {rows : List RawRow} {cats : List String} {out : List Row}
    (h : step2 rows = .ok (cats, out)) :
    rows.mapM parseRow = some out ∧ cats = sectorCatsOf rows := by
  unfold step2 at h
  by_cases hcol : ("Technology" ∈ rows.map (·.sector)
      ∧ "Information Technology" ∈ rows.map (·.sector))
  · rw [if_pos hcol] at h
    cases h
  · rw [if_neg hcol] at h
    cases hm : rows.mapM parseRow with
    | none => rw [hm] at h; cases h
    | some rs =>
      rw [hm] at h
      cases h
      exact ⟨rfl, rfl⟩

theorem step1_map_idx (rows : List RawRow) :
    (step1 rows).map (·.idx) = List.range rows.length := by
  unfold step1
  rw [List.map_map]
  have hcomp : ((fun r : RawRow => r.idx) ∘ fun p : Nat × RawRow => { p.2 with idx := p.1 })
      = Prod.fst := rfl
  rw [hcomp, List.enum_map_fst]

theorem step3_map_idx (hasT : Bool) (rows : List Row) :
    (step3 hasT rows).map (·.idx) = rows.map (·.idx) := by
  cases hasT
  · show ((rows.map fun r => { r with ticker := "ticker_" ++ decRepr r.idx }).map (·.idx))
      = rows.map (·.idx)
    rw [List.map_map]
    rfl
  · rfl

theorem step4_map_idx (cats : List String) (df : List Row) :
    (step4 cats df).map (·.idx) = df.map (·.idx) := by
  unfold step4
  rw [List.map_map]
  have hcomp : ∀ pr ∈ df.enum,
      ((fun x : Row => x.idx) ∘ fun pr : Nat × Row =>
        match (step4Updates cats df).find? (fun c => c.idx == pr.1) with
        | some c =>
          { pr.2 with analyst := c.analyst, sector := c.sector, pal := c.pal,
                      exposure := c.exposure, openLiq := c.openLiq }
        | none => { pr.2 with openLiq := none }) pr =
      ((fun x : Row => x.idx) ∘ Prod.snd) pr := by
    intro pr _
    simp only [Function.comp]
    cases (step4Updates cats df).find? (fun c => c.idx == pr.1) <;> rfl
  rw [List.map_congr_left hcomp, ← List.map_map, List.enum_map_snd]

/-! ## Claim C7 -/

/-- C7: stage 1 assigns indices equal to the positions 0..n-1; stage 2
(when it parses), stage 3, stage 4 (which merges its partition results back
keyed on those labels without adding or removing rows) and stage 5 (when it
succeeds) all leave the index column, its distinctness, and the row count
unchanged. -/
theorem c7_thm (hasT : Bool) (raw : List RawRow) (cats : List String) (rs : List Row)
    (out5 : List Row)
    (h2 : pipeTo2 raw = .ok (cats, rs))
    (h5 : step5 (step4 cats (step3 hasT rs)) = .ok out5) :
    ((step1 raw).map (·.idx) = List.range raw.length)
  ∧ (rs.map (·.idx) = List.range raw.length
      ∧ (rs.map (·.idx)).Nodup ∧ rs.length = raw.length)
  ∧ ((step3 hasT rs).map (·.idx) = List.range raw.length)
  ∧ ((step4 cats (step3 hasT rs)).map (·.idx) = List.range raw.length
      ∧ (step4 cats (step3 hasT rs)).length = raw.length)
  ∧ (out5.map (·.idx) = List.range raw.length
      ∧ (out5.map (·.idx)).Nodup ∧ out5.length = raw.length) := by
  have h1 := step1_map_idx raw
  rcases step2_ok (h2 : step2 (step1 raw) = .ok (cats, rs)) with ⟨hmapM, _⟩
  have hlen1 : (step1 raw).length = raw.length := by
    have := congrArg List.length h1
    simpa using this
  have h2idx : rs.map (·.idx) = List.range raw.length := by
    rw [(mapM_parseRow_sound _ _ hmapM).1, h1]
  have hrange : (List.range raw.length).Nodup := List.nodup_range _
  have hlen2 : rs.length = raw.length := by
    have := congrArg List.length h2idx
    simpa using this
  have h3idx : (step3 hasT rs).map (·.idx) = List.range raw.length := by
    rw [step3_map_idx, h2idx]
  have h4idx : (step4 cats (step3 hasT rs)).map (·.idx) = List.range raw.length := by
    rw [step4_map_idx, h3idx]
  have hlen4 : (step4 cats (step3 hasT rs)).length = raw.length := by
    have := congrArg List.length h4idx
    simpa using this
  have h5idx : out5.map (·.idx) = List.range raw.length := by
    rw [step5Go_ok_map_idx _ _ _ h5, h4idx]
  have hlen5 : out5.length = raw.length := by
    have := congrArg List.length h5idx
    simpa using this
  exact ⟨h1, ⟨h2idx, h2idx ▸ hrange, hlen2⟩, h3idx, ⟨h4idx, hlen4⟩,
    h5idx, h5idx ▸ hrange, hlen5⟩

theorem dec1_eval : decimalOfString "1" = some 1 := by
  have h : decBody? (decSign "1".data).2 = some (1, 0, 0) := by decide
  have hs : (decSign "1".data).1 = false := by decide
  simp only [decimalOfString, h, hs]
  norm_num

theorem dec2_eval : decimalOfString "2" = some 2 := by
  have h : decBody? (decSign "2".data).2 = some (2, 0, 0) := by decide
  have hs : (decSign "2".data).1 = false := by decide
  simp only [decimalOfString, h, hs]
  norm_num

theorem c7rs_eval : c7rs = [⟨0, 0, "A", "X", "a", "S", 1, 2, none, none⟩] := by
  show ((pipeTo2 c7raw).toOption.getD ([], [])).2 = _
  have hcol : ¬ ("Technology" ∈ (step1 c7raw).map (·.sector)
      ∧ "Information Technology" ∈ (step1 c7raw).map (·.sector)) := by decide
  simp only [pipeTo2, step2, hcol, if_false, c7raw, step1, List.enum, List.enumFrom,
    List.map_cons, List.map_nil, List.mapM_cons, List.mapM_nil, parseRow,
    dec1_eval, dec2_eval]
  rfl

theorem c7cats_eval : c7cats = ["S"] := by decide

theorem c7d4_eval : c7d4 = [⟨0, 0, "A", "X", "a", "S", 1, 2, some 1, none⟩] := by
  show step4 c7cats (step3 true c7rs) = _
  rw [c7cats_eval, c7rs_eval]
  show step4 ["S"] [⟨0, 0, "A", "X", "a", "S", 1, 2, none, none⟩] = _
  norm_num [step4, step4Updates, ltKeys, partitionLT, part4, imputeOpen, shiftOpen,
    collapsedOf, groupDates, collapseAt, dateClass, minNatD, minStrD, minCatD,
    insSort, insertOrdered, p4At, List.enum, List.enumFrom, List.dedup, List.find?]
  decide

theorem c7step5_eval : step5 c7d4 = .ok c7out := by
  have htot : totalFund c7d4 0 ≠ 0 := by
    rw [show totalFund c7d4 0 = 1 from by
      rw [c7d4_eval]
      norm_num [totalFund, dayRows, List.filterMap_cons, List.filterMap_nil]]
    norm_num
  have hdates : dfDates c7d4 = [0] := by decide
  unfold step5
  rw [hdates]
  show (if totalFund c7d4 0 = 0 then Except.error "decimal.DivisionByZero"
    else step5Go (applyRet c7d4 0 (totalFund c7d4 0)) []) = Except.ok c7out
  rw [if_neg htot]
  rfl

/-- C7 witness: the one-row pipeline run keeps index 0 and row count 1
through stages 2-5. -/
theorem c7_witness :
    pipeTo2 c7raw = .ok (c7cats, c7rs)
  ∧ step5 (step4 c7cats (step3 true c7rs)) = .ok c7out
  ∧ (step1 c7raw).map (·.idx) = List.range c7raw.length
  ∧ (c7rs.map (·.idx) = List.range c7raw.length ∧ c7rs.length = c7raw.length)
  ∧ ((step4 c7cats (step3 true c7rs)).map (·.idx) = List.range c7raw.length
      ∧ (step4 c7cats (step3 true c7rs)).length = c7raw.length)
  ∧ (c7out.map (·.idx) = List.range c7raw.length ∧ c7out.length = c7raw.length) :=
  ⟨rfl, c7step5_eval,
    (c7_thm true c7raw c7cats c7rs c7out rfl c7step5_eval).1,
    ⟨(c7_thm true c7raw c7cats c7rs c7out rfl c7step5_eval).2.1.1,
      (c7_thm true c7raw c7cats c7rs c7out rfl c7step5_eval).2.1.2.2⟩,
    ⟨(c7_thm true c7raw c7cats c7rs c7out rfl c7step5_eval).2.2.2.1.1,
      (c7_thm true c7raw c7cats c7rs c7out rfl c7step5_eval).2.2.2.1.2⟩,
    ⟨(c7_thm true c7raw c7cats c7rs c7out rfl c7step5_eval).2.2.2.2.1,
      (c7_thm true c7raw c7cats c7rs c7out rfl c7step5_eval).2.2.2.2.2.2⟩⟩

/-! ## Claim C9 -/

theorem dec_toRat_eq (neg : Bool) (a b k : Nat) :
    (if neg then (-1 : Rat) else 1) * ((a : Rat) + (b : Rat) / (10 : Rat) ^ k)
      = Dec.toRat ⟨neg, a * 10 ^ k + b, k⟩ := by
  have h10 : ((10 : Rat) ^ k) ≠ 0 := pow_ne_zero _ (by norm_num)
  unfold Dec.toRat
  rw [mul_div_assoc]
  congr 1
  rw [eq_div_iff h10]
  push_cast
  field_simp

theorem decOfString_spec (s : String) (v : Rat) (h : decimalOfString s = some v) :
    ∃ d : Dec, decOfString s = some d ∧ v = d.toRat := by
  simp only [decimalOfString] at h
  simp only [decOfString]
  cases hb : decBody? (decSign s.data).2 with
  | none => rw [hb] at h; cases h
  | some t =>
    rw [hb] at h
    obtain ⟨a, b, k⟩ := t
    cases h
    exact ⟨⟨(decSign s.data).1, a * 10 ^ k + b, k⟩, rfl, dec_toRat_eq _ a b k⟩

/-- C9: when stage 2 parses a row, the resulting sector is
"Information Technology" exactly for input sector "Technology" and is the
input value otherwise, and `pal`/`exposure` hold the exact
sign-coefficient-exponent decimal denoted by their input strings (the
Decimal constructor keeps every written digit; no floating-point or
28-digit rounding occurs at construction); and every row of a successful
stage 2 output arises this way from an input row. -/
theorem c9_thm :
    (∀ (r : RawRow) (row : Row), parseRow r = some row →
      row.sector = (if r.sector = "Technology" then "Information Technology" else r.sector)
      ∧ (∃ d : Dec, decOfString r.pal = some d ∧ row.pal = d.toRat)
      ∧ (∃ d : Dec, decOfString r.exposure = some d ∧ row.exposure = d.toRat))
  ∧ (∀ (rows : List RawRow) (cats : List String) (out : List Row),
      step2 rows = .ok (cats, out) → ∀ row ∈ out, ∃ r ∈ rows, parseRow r = some row) := by
  constructor
  · intro r row h
    unfold parseRow at h
    cases hp : decimalOfString r.pal with
    | none => rw [hp] at h; cases h
    | some p =>
      cases he : decimalOfString r.exposure with
      | none => rw [hp, he] at h; cases h
      | some e =>
        rw [hp, he] at h
        cases h
        exact ⟨rfl, decOfString_spec r.pal p hp, decOfString_spec r.exposure e he⟩
  · intro rows cats out h row hrow
    rcases step2_ok h with ⟨hm, _⟩
    exact (mapM_parseRow_sound rows out hm).2 row hrow

/-- C9 witness: the row with sector "Technology", pal "12.5" and exposure
"300" parses to sector "Information Technology", pal 125·10⁻¹ and
exposure 300 — the exact values of the input strings. -/
theorem c9_witness :
    parseRow c9raw0 = some c9row
  ∧ c9row.sector = "Information Technology"
  ∧ decOfString c9raw0.pal = some ⟨false, 125, 1⟩
  ∧ c9row.pal = Dec.toRat ⟨false, 125, 1⟩
  ∧ decOfString c9raw0.exposure = some ⟨false, 300, 0⟩
  ∧ c9row.exposure = Dec.toRat ⟨false, 300, 0⟩ := by
  have h : parseRow c9raw0 = some c9row := rfl
  have hmain := c9_thm.1 c9raw0 c9row h
  refine ⟨h, by simpa using hmain.1, by decide, ?_, by decide, ?_⟩
  · rcases hmain.2.1 with ⟨d, hd, hv⟩
    have hlit : decOfString c9raw0.pal = some ⟨false, 125, 1⟩ := by decide
    rw [hlit] at hd
    rw [Option.some.inj hd]
    exact hv
  · rcases hmain.2.2 with ⟨d, hd, hv⟩
    have hlit : decOfString c9raw0.exposure = some ⟨false, 300, 0⟩ := by decide
    rw [hlit] at hd
    rw [Option.some.inj hd]
    exact hv

/-- C6 witness: the amended theorem at the (0,"A") group of `c6df`. -/
theorem c6_amended_witness :
    (c6df.map (·.idx) = List.range c6df.length ∧ (0, "A") ∈ dlKeys c6df)
  ∧ (aggAt c6cats c6df (0, "A")).analyst ∈ (dlClass c6df (0, "A")).map (·.analyst)
  ∧ (∀ s ∈ (dlClass c6df (0, "A")).map (·.sector),
      catRank c6cats (aggAt c6cats c6df (0, "A")).sector ≤ catRank c6cats s)
  ∧ (aggAt c6cats c6df (0, "A")).pal = ((dlClass c6df (0, "A")).map (·.pal)).sum
  ∧ (aggAt c6cats c6df (0, "A")).firstLabel ∈ (dlClass c6df (0, "A")).map (·.idx)
  ∧ ∀ j ∈ (dlClass c6df (0, "A")).map (·.idx),
      (aggAt c6cats c6df (0, "A")).firstLabel ≤ j :=
  ⟨⟨by decide, by decide⟩,
    (c6_amended_thm c6cats c6df (by decide) (0, "A") (by decide)).1.1,
    (c6_amended_thm c6cats c6df (by decide) (0, "A") (by decide)).2.1.2,
    (c6_amended_thm c6cats c6df (by decide) (0, "A") (by decide)).2.2.1,
    (c6_amended_thm c6cats c6df (by decide) (0, "A") (by decide)).2.2.2.2.2.1,
    (c6_amended_thm c6cats c6df (by decide) (0, "A") (by decide)).2.2.2.2.2.2⟩

/-- C2 witness: on the consecutive-days dataset, the representative row of
date 0 receives the collapsed exposure of date 1. -/
theorem c2_witness :
    (c2df.map (·.idx) = List.range c2df.length
      ∧ (collapseAt c2cats (partitionLT c2df "A" "X") 0).idx = 0
      ∧ ((0 : Int) + 1) ∈ groupDates (partitionLT c2df "A" "X"))
  ∧ ((step4 c2cats c2df).get ⟨0, by decide⟩).openLiq =
      some ((collapseAt c2cats (partitionLT c2df "A" "X") (0 + 1)).exposure) :=
  ⟨⟨by decide, by decide, by decide⟩,
    (c2_thm c2cats c2df (by decide) 0 (by decide) (by decide)).1 (by decide)⟩
